import Mathlib

/-!
Verification of the Modbus slave protocol core (`src/index.js`) against its
natural-language specification.

The JavaScript source is shallowly embedded: byte values are `Nat`s, JS
arrays become `List Nat`, the `(value, tag)` pairs fed to `parsePDU` become
`Nat × Nat`, and the thrown `TypeError` that the decode loop of `parsePDU`
can raise (reading `data[i+1][0]` past the end of the array) is modelled as
an explicit `crash` outcome.  All definitions are translated from the
source; definitions whose names start with `spec` restate the wording of
the specification for refinement comparisons.

Domain note: the handlers read request bytes positionally (`request[k]`),
which we model with `List.getD _ k 0`.  JavaScript coerces a missing byte
(`undefined`) through `NaN` in arithmetic; the theorems below only ever
apply the handlers to complete frames, where every access is in range and
the `getD` default is never used.
-/

/-- CRC_16 inner loop (`for (let j = 0; j < 8; j++)` in `CRC_16`):
`crc = crc & 0x0001 ? (crc >> 1) ^ 0xA001 : crc >> 1`, iterated `j` times. -/
def CRC_16_inner (crc : Nat) : Nat → Nat
  | 0 => crc
  | j + 1 =>
      CRC_16_inner (if crc &&& 0x0001 ≠ 0 then (crc >>> 1) ^^^ 0xA001 else crc >>> 1) j

/-- CRC_16 from `src/index.js` lines 192-204: start from 0xFFFF, for each
message byte XOR it in and run the 8-round inner loop. -/
def CRC_16 (message : List Nat) : Nat :=
  message.foldl (fun crc b => CRC_16_inner (crc ^^^ b) 8) 0xFFFF

/-- validateCRC_16 from `src/index.js` lines 211-213: recompute and compare. -/
def validateCRC_16 (message : List Nat) (crc : Nat) : Bool :=
  CRC_16 message == crc

/-- Specification wording of one CRC round: if the low bit is set, shift
right one and XOR with 0xA001, else just shift right. -/
def specCrcRound (c : Nat) : Nat :=
  if c % 2 = 1 then (c / 2) ^^^ 0xA001 else c / 2

/-- Specification wording of the CRC byte step: XOR the input byte into the
running value, then 8 iterations of `specCrcRound`. -/
def specCrcByte (c b : Nat) : Nat :=
  specCrcRound^[8] (c ^^^ b)

/-- Specification wording of the whole checksum: CRC-16 with polynomial
0xA001 and initial value 0xFFFF, processed byte-by-byte. -/
def specCrc (bytes : List Nat) : Nat :=
  bytes.foldl specCrcByte 0xFFFF

/-- Uint8ClampedArray conversion for the nonnegative integers produced by
the protocol arithmetic: values above 255 are clamped to 255. -/
def clampU8 (x : Nat) : Nat := min x 255

/-- Byte emission for one `(value, tag)` argument of `makePDU`
(`src/index.js` lines 227-232): tag 1 pushes the value verbatim, tag 2
pushes `value >> 8` then `value & 255`. -/
def fieldBytes (arg : Nat × Nat) : List Nat :=
  (if arg.2 = 1 then [arg.1] else []) ++
    (if arg.2 = 2 then [arg.1 >>> 8, arg.1 &&& 255] else [])

/-- makePDU from `src/index.js` lines 221-243: emit slaveId, functionId and
the field bytes, clamp them (`Uint8ClampedArray`), compute the CRC over the
clamped bytes, append it low byte first, and clamp the result again. -/
def makePDU (slaveId functionId : Nat) (args : List (Nat × Nat)) : List Nat :=
  let untypedArray := slaveId :: functionId :: (args.map fieldBytes).flatten
  let data := untypedArray.map clampU8
  let crc := CRC_16 data
  (untypedArray ++ [crc &&& 255, crc >>> 8]).map clampU8

/-- Result record built by `parsePDU` (`src/index.js` lines 250-254). -/
structure DecodedPDU where
  slaveId : Nat
  functionId : Nat
  data : List Nat
deriving DecidableEq

/-- Decode loop of `parsePDU` (`src/index.js` lines 260-267) over the
`(value, tag)` pairs strictly between the header and the checksum: tag 0
pushes the value, tag 1 pushes `(value << 8) + nextValue`, tag 2 (the low
byte already consumed by the preceding tag 1) is skipped.  When a tag-1
pair is the last element, the source reads `data[i+1][0]` of `undefined`
and throws a TypeError; that is the `none` result here. -/
def decodeData : List (Nat × Nat) → Option (List Nat)
  | [] => some []
  | (v, t) :: rest =>
    if t = 0 then (decodeData rest).map (fun l => v :: l)
    else if t = 1 then
      match rest with
      | [] => none
      | (v2, _) :: _ => (decodeData rest).map (fun l => ((v <<< 8) + v2) :: l)
    else decodeData rest

/-- Outcome of `parsePDU`: a thrown TypeError (`crash`), a `null` return on
checksum mismatch (`invalid`), or the decoded record. -/
inductive ParseResult where
  | crash
  | invalid
  | ok (d : DecodedPDU)
deriving DecidableEq

/-- parsePDU from `src/index.js` lines 249-274: the checksum input is every
pair but the last two, the payload pairs are those strictly between the
two header pairs and the two checksum pairs, and the transmitted checksum
is read low byte first from the final two pairs. -/
def parsePDU (PDU : List (Nat × Nat)) : ParseResult :=
  match PDU with
  | p0 :: p1 :: _ =>
    let n := PDU.length
    let validatablePart := (PDU.take (n - 2)).map Prod.fst
    let data := (PDU.drop 2).take (n - 4)
    let crc := ((PDU.getD (n - 1) (0, 0)).fst <<< 8) + (PDU.getD (n - 2) (0, 0)).fst
    match decodeData data with
    | none => .crash
    | some ds =>
      if validateCRC_16 validatablePart crc then .ok ⟨p0.fst, p1.fst, ds⟩
      else .invalid
  | _ => .crash

/-- makeError from `src/index.js` lines 479-485: echo the raw unit id, set
the high bit of the raw function id, and carry the error code as a single
one-byte field. -/
def makeError (request : List Nat) (errcode : Nat) : List Nat :=
  makePDU (request.getD 0 0) ((request.getD 1 0) ||| 0b10000000) [(errcode, 1)]

/-- handle0x03Request from `src/index.js` lines 365-405, with the register
bank (`this.tags`) passed explicitly.  `none` models a thrown TypeError
(never reached on this fixed eight-pair layout). -/
def handle0x03Request (tags request : List Nat) : Option (List Nat) :=
  let refactoredData : List (Nat × Nat) :=
    [(request.getD 0 0, 0), (request.getD 1 0, 0),
     (request.getD 2 0, 1), (request.getD 3 0, 2),
     (request.getD 4 0, 1), (request.getD 5 0, 2),
     (request.getD 6 0, 1), (request.getD 7 0, 2)]
  match parsePDU refactoredData with
  | .crash => none
  | .invalid => some (makeError request 4)
  | .ok data =>
    let start := data.data.getD 0 0
    let qty := data.data.getD 1 0
    if start > 999 ∨ start + qty - 1 > 999 then some (makeError request 2)
    else some (makePDU data.slaveId data.functionId
      ((qty * 2, 1) :: ((tags.drop start).take (start + qty - start)).map (fun x => (x, 2))))

/-- Index-alternating tags given to the trailing bytes of a 0x10 request
(`src/index.js` line 422): byte `i` of the tail gets tag `(i % 2) + 1`. -/
def tagAlternating : List Nat → Nat → List (Nat × Nat)
  | [], _ => []
  | x :: rest, i => (x, i % 2 + 1) :: tagAlternating rest (i + 1)

/-- Write loop of `handle0x10Request` (`src/index.js` lines 455-457):
`tags[start + k] = vals[k]` in order of increasing `k`. -/
def writeTags (bank : List Nat) (start : Nat) : List Nat → List Nat
  | [] => bank
  | v :: vs => writeTags (bank.set start v) (start + 1) vs

/-- Byte-count validation of `handle0x10Request` (`src/index.js` line 441):
JavaScript compares `quantity !== byteCount / 2` with real division,
modelled in `ℚ`; a missing `data[2]` is `undefined`, whose division is NaN
and never equal, hence `true`. -/
def byteCountMismatch (qty : Nat) (bcOpt : Option Nat) : Bool :=
  match bcOpt with
  | none => true
  | some bc => (qty : ℚ) != (bc : ℚ) / 2

/-- handle0x10Request from `src/index.js` lines 412-471.  The value-count
check subtracts in JavaScript arithmetic, modelled in `ℤ`.  `none` models
the TypeError thrown by the decode loop on a trailing tag-1 pair. -/
def handle0x10Request (tags request : List Nat) : Option (List Nat × List Nat) :=
  let refactoredData : List (Nat × Nat) :=
    [(request.getD 0 0, 0), (request.getD 1 0, 0),
     (request.getD 2 0, 1), (request.getD 3 0, 2),
     (request.getD 4 0, 1), (request.getD 5 0, 2),
     (request.getD 6 0, 0)] ++ tagAlternating (request.drop 7) 0
  match parsePDU refactoredData with
  | .crash => none
  | .invalid => some (tags, makeError request 4)
  | .ok data =>
    let start := data.data.getD 0 0
    let qty := data.data.getD 1 0
    if start > 999 ∨ start + qty - 1 > 999 then some (tags, makeError request 2)
    else if byteCountMismatch qty (data.data.get? 2) then some (tags, makeError request 3)
    else if (qty : ℤ) ≠ (data.data.length : ℤ) - 3 then some (tags, makeError request 3)
    else
      let newTags := writeTags tags start (data.data.drop 3)
      some (newTags, makePDU data.slaveId data.functionId [(start, 2), (qty, 2)])

/-- handleModbusRequest from `src/index.js` lines 354-358: dispatch on the
second request byte; unrecognized functions answer `makeError _ 1`.  The
returned pair carries the (possibly updated) register bank. -/
def handleModbusRequest (tags request : List Nat) : Option (List Nat × List Nat) :=
  if request.getD 1 0 = 0x03 then (handle0x03Request tags request).map (fun r => (tags, r))
  else if request.getD 1 0 = 0x10 then handle0x10Request tags request
  else some (tags, makeError request 1)

/-- Terminal outcome of one `data` event of the Modbus socket server. -/
inductive ServerOutcome where
  | discarded
  | crash
  | reply (newTags : List Nat) (response : List Nat)
deriving DecidableEq

/-- Data-event handler of `startModbusServer` (`src/index.js` lines
298-301): if the first request byte equals the configured id, the request
is handled and the response written back; otherwise nothing happens.  A
TypeError thrown inside the handler aborts the process: `crash`. -/
def serverStep (configId : Nat) (tags request : List Nat) : ServerOutcome :=
  match request with
  | [] => .discarded
  | b :: _ =>
    if b = configId then
      match handleModbusRequest tags request with
      | none => .crash
      | some (t, r) => .reply t r
    else .discarded

/-- Specification wording of the bytes of one field: a 1-byte field
verbatim, a 2-byte field big-endian high byte first. -/
def specFieldBytes (f : Nat × Nat) : List Nat :=
  if f.2 = 1 then [f.1] else if f.2 = 2 then [f.1 / 256, f.1 % 256] else []

/-- Field-width layout entry matching one field, for `parsePDU`: a 1-byte
field is one tag-0 pair, a 2-byte field is a tag-1 pair then a tag-2 pair. -/
def fieldTagList (f : Nat × Nat) : List Nat :=
  (if f.2 = 1 then [0] else []) ++ (if f.2 = 2 then [1, 2] else [])

/-- Field-width layout matching a whole field list: two header tags, the
per-field tags, and two tags for the trailing checksum bytes. -/
def matchingLayout (fs : List (Nat × Nat)) : List Nat :=
  0 :: 0 :: ((fs.map fieldTagList).flatten ++ [0, 0])

/-- Tagged pairs produced by zipping a field's emitted bytes with its
layout tags. -/
def fieldTagged (f : Nat × Nat) : List (Nat × Nat) :=
  (if f.2 = 1 then [(f.1, 0)] else []) ++
    (if f.2 = 2 then [(f.1 >>> 8, 1), (f.1 &&& 255, 2)] else [])

/-- Tagged pairs of a whole field list. -/
def taggedFields (fs : List (Nat × Nat)) : List (Nat × Nat) :=
  (fs.map fieldTagged).flatten

/-- WellFormedFields: every field is a 1-byte literal holding a byte or a
2-byte big-endian word holding a 16-bit value (the FieldSpec data model). -/
def WellFormedFields (fs : List (Nat × Nat)) : Prop :=
  ∀ f ∈ fs, (f.2 = 1 ∧ f.1 < 256) ∨ (f.2 = 2 ∧ f.1 < 65536)

instance : DecidablePred WellFormedFields := fun fs =>
  inferInstanceAs (Decidable (∀ f ∈ fs, _ ∨ _))

/-- Field list of a canonical Write Multiple Registers request: 2-byte
start, 2-byte quantity, 1-byte byteCount = quantity*2, then the 2-byte
values. -/
def writeFields (s q : Nat) (vals : List Nat) : List (Nat × Nat) :=
  (s, 2) :: (q, 2) :: (q * 2, 1) :: vals.map (fun v => (v, 2))

/-- Bytes emitted for the value fields of a write request. -/
def valBytes (vals : List Nat) : List Nat :=
  ((vals.map (fun v => (v, 2))).map fieldBytes).flatten

/-- Checksum input of a canonical write request. -/
def writeReqBody (u s q : Nat) (vals : List Nat) : List Nat :=
  u :: 16 :: (s >>> 8) :: (s &&& 255) :: (q >>> 8) :: (q &&& 255) :: (q * 2) :: valBytes vals

theorem CRC_16_inner_eq_iterate (j : Nat) : ∀ c, CRC_16_inner c j = specCrcRound^[j] c := by
  induction j with
  | zero => intro c; rfl
  | succ j ih =>
      intro c
      rw [CRC_16_inner, Function.iterate_succ_apply, ih]
      have hstep : (if c &&& 0x0001 ≠ 0 then (c >>> 1) ^^^ 0xA001 else c >>> 1)
          = specCrcRound c := by
        unfold specCrcRound
        rw [Nat.and_one_is_mod, Nat.shiftRight_eq_div_pow, pow_one]
        rcases Nat.mod_two_eq_zero_or_one c with h | h <;> simp [h]
      rw [hstep]

theorem recombine_bytes (v : Nat) : ((v >>> 8) <<< 8) + (v &&& 255) = v := by
  rw [Nat.shiftRight_eq_div_pow, Nat.shiftLeft_eq]
  have h255 : (255 : Nat) = 2 ^ 8 - 1 := by norm_num
  rw [h255, Nat.and_pow_two_sub_one_eq_mod]
  rw [Nat.mul_comm]
  exact Nat.div_add_mod v (2 ^ 8)

theorem shiftRight8_lt {v : Nat} (h : v < 65536) : v >>> 8 < 256 := by
  rw [Nat.shiftRight_eq_div_pow]
  have : (2 : Nat) ^ 8 = 256 := by norm_num
  rw [this]
  exact Nat.div_lt_of_lt_mul (by omega)

theorem and255_lt (v : Nat) : v &&& 255 < 256 := by
  have h255 : (255 : Nat) = 2 ^ 8 - 1 := by norm_num
  rw [h255, Nat.and_pow_two_sub_one_eq_mod]
  exact Nat.mod_lt _ (by norm_num)

theorem CRC_16_inner_lt (j : Nat) : ∀ c, c < 65536 → CRC_16_inner c j < 65536 := by
  induction j with
  | zero => intro c h; exact h
  | succ j ih =>
      intro c h
      rw [CRC_16_inner]
      apply ih
      have hdiv : c >>> 1 < 65536 := by
        rw [Nat.shiftRight_eq_div_pow, pow_one]
        omega
      split
      · have h16 : (65536 : Nat) = 2 ^ 16 := by norm_num
        rw [h16] at hdiv ⊢
        exact Nat.xor_lt_two_pow hdiv (by norm_num)
      · exact hdiv

theorem CRC_16_lt {msg : List Nat} (h : ∀ b ∈ msg, b < 65536) : CRC_16 msg < 65536 := by
  have H : ∀ (l : List Nat) (acc : Nat), (∀ b ∈ l, b < 65536) → acc < 65536 →
      l.foldl (fun crc b => CRC_16_inner (crc ^^^ b) 8) acc < 65536 := by
    intro l
    induction l with
    | nil => intro acc _ hacc; exact hacc
    | cons a t ih =>
        intro acc hl hacc
        simp only [List.foldl_cons]
        apply ih _ (fun b hb => hl b (List.mem_cons_of_mem a hb))
        apply CRC_16_inner_lt
        have h16 : (65536 : Nat) = 2 ^ 16 := by norm_num
        rw [h16]
        exact Nat.xor_lt_two_pow (h16 ▸ hacc) (h16 ▸ hl a (List.mem_cons_self a t))
  exact H msg 0xFFFF h (by norm_num)

theorem clampU8_of_lt {x : Nat} (h : x < 256) : clampU8 x = x := by
  unfold clampU8; omega

theorem map_clampU8_of_lt {l : List Nat} (h : ∀ b ∈ l, b < 256) :
    l.map clampU8 = l := by
  induction l with
  | nil => rfl
  | cons a t ih =>
      simp only [List.map_cons]
      rw [clampU8_of_lt (h a (List.mem_cons_self a t)),
        ih (fun b hb => h b (List.mem_cons_of_mem a hb))]

theorem taggedFields_map_fst (fs : List (Nat × Nat)) :
    (taggedFields fs).map Prod.fst = (fs.map fieldBytes).flatten := by
  induction fs with
  | nil => rfl
  | cons f t ih =>
      simp only [taggedFields, fieldTagged, fieldBytes, List.map_cons, List.flatten_cons,
        List.map_append] at *
      rw [ih]
      by_cases h1 : f.2 = 1 <;> by_cases h2 : f.2 = 2 <;> simp [h1, h2]

theorem taggedFields_cons (f : Nat × Nat) (t : List (Nat × Nat)) :
    taggedFields (f :: t) = fieldTagged f ++ taggedFields t := by
  simp [taggedFields]

theorem decodeData_taggedFields (fs : List (Nat × Nat))
    (h : ∀ f ∈ fs, f.2 = 1 ∨ f.2 = 2) :
    decodeData (taggedFields fs) = some (fs.map Prod.fst) := by
  induction fs with
  | nil => rfl
  | cons f t ih =>
      have hf := h f (List.mem_cons_self f t)
      have ht := fun g hg => h g (List.mem_cons_of_mem f hg)
      rw [taggedFields_cons]
      rcases hf with h1 | h2
      · simp [fieldTagged, h1, decodeData, ih ht]
      · simp [fieldTagged, h2, decodeData, ih ht, recombine_bytes]

theorem fieldBytes_lt {fs : List (Nat × Nat)} (h : WellFormedFields fs) :
    ∀ b ∈ (fs.map fieldBytes).flatten, b < 256 := by
  induction fs with
  | nil => intro b hb; simp at hb
  | cons f t ih =>
      intro b hb
      simp only [List.map_cons, List.flatten_cons, List.mem_append] at hb
      rcases hb with hb | hb
      · rcases h f (List.mem_cons_self f t) with ⟨h1, hv⟩ | ⟨h2, hv⟩
        · rw [fieldBytes, if_pos h1] at hb
          have : ¬ f.2 = 2 := by rw [h1]; norm_num
          rw [if_neg this] at hb
          simp at hb
          omega
        · have hne1 : ¬ f.2 = 1 := by rw [h2]; norm_num
          rw [fieldBytes, if_neg hne1, if_pos h2] at hb
          simp at hb
          rcases hb with hb | hb
          · rw [hb]; exact shiftRight8_lt hv
          · rw [hb]; exact and255_lt f.1
      · exact ih (fun g hg => h g (List.mem_cons_of_mem f hg)) b hb

theorem makePDU_explicit (u fn : Nat) (fs : List (Nat × Nat))
    (hu : u < 256) (hfn : fn < 256) (hfs : WellFormedFields fs) :
    makePDU u fn fs =
      u :: fn :: (fs.map fieldBytes).flatten ++
        [CRC_16 (u :: fn :: (fs.map fieldBytes).flatten) &&& 255,
         CRC_16 (u :: fn :: (fs.map fieldBytes).flatten) >>> 8] := by
  have hbytes : ∀ b ∈ u :: fn :: (fs.map fieldBytes).flatten, b < 256 := by
    intro b hb
    rcases List.mem_cons.mp hb with rfl | hb
    · exact hu
    rcases List.mem_cons.mp hb with rfl | hb
    · exact hfn
    exact fieldBytes_lt hfs b hb
  have hcrc : CRC_16 (u :: fn :: (fs.map fieldBytes).flatten) < 65536 :=
    CRC_16_lt (fun b hb => lt_trans (hbytes b hb) (by norm_num))
  simp only [makePDU]
  rw [map_clampU8_of_lt hbytes]
  rw [map_clampU8_of_lt]
  intro b hb
  rw [List.mem_append] at hb
  rcases hb with hb | hb
  · exact hbytes b hb
  · simp at hb
    rcases hb with hb | hb
    · rw [hb]; exact and255_lt _
    · rw [hb]; exact shiftRight8_lt hcrc

theorem parsePDU_shape (a b p q : Nat × Nat) (M : List (Nat × Nat)) :
    parsePDU (a :: b :: (M ++ [p, q])) =
      (match decodeData M with
       | none => ParseResult.crash
       | some ds =>
         if validateCRC_16 (a.1 :: b.1 :: M.map Prod.fst) ((q.1 <<< 8) + p.1)
         then ParseResult.ok ⟨a.1, b.1, ds⟩ else ParseResult.invalid) := by
  simp only [parsePDU]
  have h1 : (a :: b :: (M ++ [p, q])).length = M.length + 4 := by simp
  rw [h1]
  have h2 : M.length + 4 - 2 = M.length + 2 := by omega
  have h3 : M.length + 4 - 4 = M.length := by omega
  have h4 : M.length + 4 - 1 = M.length + 3 := by omega
  rw [h2, h3, h4]
  have htake : (a :: b :: (M ++ [p, q])).take (M.length + 2) = a :: b :: M := by
    rw [show M.length + 2 = (M.length + 1) + 1 from rfl,
      List.take_succ_cons, List.take_succ_cons, List.take_left]
  have hdrop : ((a :: b :: (M ++ [p, q])).drop 2).take M.length = M := by
    rw [show (2 : Nat) = 1 + 1 from rfl, List.drop_succ_cons, List.drop_succ_cons,
      List.drop_zero, List.take_left]
  have hgd1 : (a :: b :: (M ++ [p, q])).getD (M.length + 3) (0, 0) = q := by
    rw [List.getD_eq_getElem?_getD,
      show M.length + 3 = (M.length + 2) + 1 from rfl, List.getElem?_cons_succ,
      show M.length + 2 = (M.length + 1) + 1 from rfl, List.getElem?_cons_succ,
      List.getElem?_append_right (by omega)]
    have : M.length + 1 - M.length = 1 := by omega
    rw [this]
    rfl
  have hgd2 : (a :: b :: (M ++ [p, q])).getD (M.length + 2) (0, 0) = p := by
    rw [List.getD_eq_getElem?_getD,
      show M.length + 2 = (M.length + 1) + 1 from rfl, List.getElem?_cons_succ,
      show M.length + 1 = M.length + 1 from rfl, List.getElem?_cons_succ,
      List.getElem?_append_right (by omega)]
    have : M.length - M.length = 0 := by omega
    rw [this]
    rfl
  rw [htake, hdrop, hgd1, hgd2]
  simp

theorem parsePDU_wellformed (u fn t0 t1 ta tb : Nat) (fs : List (Nat × Nat))
    (h : ∀ f ∈ fs, f.2 = 1 ∨ f.2 = 2) :
    parsePDU ((u, t0) :: (fn, t1) :: (taggedFields fs ++
        [(CRC_16 (u :: fn :: (fs.map fieldBytes).flatten) &&& 255, ta),
         (CRC_16 (u :: fn :: (fs.map fieldBytes).flatten) >>> 8, tb)])) =
      ParseResult.ok ⟨u, fn, fs.map Prod.fst⟩ := by
  rw [parsePDU_shape]
  rw [decodeData_taggedFields fs h]
  rw [taggedFields_map_fst]
  have hcrc : ((CRC_16 (u :: fn :: (fs.map fieldBytes).flatten) >>> 8) <<< 8) +
      (CRC_16 (u :: fn :: (fs.map fieldBytes).flatten) &&& 255) =
      CRC_16 (u :: fn :: (fs.map fieldBytes).flatten) := recombine_bytes _
  simp only [hcrc, validateCRC_16]
  simp

theorem shiftRight8_eq (v : Nat) : v >>> 8 = v / 256 := by
  rw [Nat.shiftRight_eq_div_pow]

theorem and255_eq (v : Nat) : v &&& 255 = v % 256 := by
  have h255 : (255 : Nat) = 2 ^ 8 - 1 := by norm_num
  rw [h255, Nat.and_pow_two_sub_one_eq_mod]

theorem fieldBytes_eq_spec (f : Nat × Nat) : fieldBytes f = specFieldBytes f := by
  unfold fieldBytes specFieldBytes
  by_cases h1 : f.2 = 1
  · simp [h1]
  · by_cases h2 : f.2 = 2
    · simp [h1, h2, shiftRight8_eq, and255_eq]
    · simp [h1, h2]

theorem fieldBytes_tags_length (f : Nat × Nat) :
    (fieldBytes f).length = (fieldTagList f).length := by
  unfold fieldBytes fieldTagList
  by_cases h1 : f.2 = 1 <;> by_cases h2 : f.2 = 2 <;> simp [h1, h2]

theorem flatten_bytes_tags_length (fs : List (Nat × Nat)) :
    ((fs.map fieldBytes).flatten).length = ((fs.map fieldTagList).flatten).length := by
  induction fs with
  | nil => rfl
  | cons f t ih =>
      simp only [List.map_cons, List.flatten_cons, List.length_append,
        fieldBytes_tags_length, ih]

theorem zip_fieldBytes_tags (fs : List (Nat × Nat)) :
    ((fs.map fieldBytes).flatten).zip ((fs.map fieldTagList).flatten) = taggedFields fs := by
  induction fs with
  | nil => rfl
  | cons f t ih =>
      simp only [List.map_cons, List.flatten_cons, taggedFields_cons]
      rw [List.zip_append (fieldBytes_tags_length f), ih]
      congr 1
      unfold fieldBytes fieldTagList fieldTagged
      by_cases h1 : f.2 = 1 <;> by_cases h2 : f.2 = 2 <;> simp [h1, h2]

set_option maxRecDepth 4000 in
/-- C1: the Checksum Engine's compute implements CRC-16 with polynomial
0xA001 and initial value 0xFFFF, processed byte-by-byte exactly as the
specification describes, and matches the reference vector
`compute([0x01,0x03,0x00,0x00,0x00,0x0A]) = 0xCDC5`. -/
theorem C1_crc_matches_spec :
    (∀ bytes : List Nat, CRC_16 bytes = specCrc bytes) ∧
      CRC_16 [0x01, 0x03, 0x00, 0x00, 0x00, 0x0A] = 0xCDC5 := by
  constructor
  · intro bytes
    unfold CRC_16 specCrc
    congr 1
    funext c b
    exact CRC_16_inner_eq_iterate 8 (c ^^^ b)
  · decide

/-- C2: for every unit id, function id and well-formed ordered field list,
encode emits unitId, functionId, each field (1-byte verbatim, 2-byte
big-endian high byte first), then appends the CRC-16 over all bytes
emitted so far with its low byte first and high byte second. -/
theorem C2_encode_wire_format (u fn : Nat) (fs : List (Nat × Nat))
    (hu : u < 256) (hfn : fn < 256) (hfs : WellFormedFields fs) :
    makePDU u fn fs =
      (u :: fn :: (fs.map specFieldBytes).flatten) ++
        [CRC_16 (u :: fn :: (fs.map specFieldBytes).flatten) % 256,
         CRC_16 (u :: fn :: (fs.map specFieldBytes).flatten) / 256] := by
  have hmaps : fs.map fieldBytes = fs.map specFieldBytes :=
    List.map_congr_left (fun f _ => fieldBytes_eq_spec f)
  rw [makePDU_explicit u fn fs hu hfn hfs, hmaps, and255_eq, shiftRight8_eq]

/-- C2 witness: concrete instance with one 1-byte and one 2-byte field. -/
theorem C2_encode_wire_format_witness :
    ((1 : Nat) < 256 ∧ (3 : Nat) < 256 ∧ WellFormedFields [(20, 1), (5000, 2)]) ∧
      makePDU 1 3 [(20, 1), (5000, 2)] =
        (1 :: 3 :: ([(20, 1), (5000, 2)].map specFieldBytes).flatten) ++
          [CRC_16 (1 :: 3 :: ([(20, 1), (5000, 2)].map specFieldBytes).flatten) % 256,
           CRC_16 (1 :: 3 :: ([(20, 1), (5000, 2)].map specFieldBytes).flatten) / 256] :=
  ⟨⟨by norm_num, by norm_num, by decide⟩,
    C2_encode_wire_format 1 3 [(20, 1), (5000, 2)] (by norm_num) (by norm_num) (by decide)⟩

/-- C3: decoding the frame produced by encode, with the field-width layout
matching the encoded fields, succeeds and returns the unit id, the
function id, and the fields as flattened values. -/
theorem C3_roundtrip (u fn : Nat) (fs : List (Nat × Nat))
    (hu : u < 256) (hfn : fn < 256) (hfs : WellFormedFields fs) :
    parsePDU ((makePDU u fn fs).zip (matchingLayout fs)) =
      ParseResult.ok ⟨u, fn, fs.map Prod.fst⟩ := by
  rw [makePDU_explicit u fn fs hu hfn hfs]
  have htags : ∀ f ∈ fs, f.2 = 1 ∨ f.2 = 2 := by
    intro f hf
    rcases hfs f hf with ⟨h1, _⟩ | ⟨h2, _⟩
    · exact Or.inl h1
    · exact Or.inr h2
  unfold matchingLayout
  rw [List.cons_append, List.cons_append]
  simp only [List.zip_cons_cons]
  rw [List.zip_append (flatten_bytes_tags_length fs), zip_fieldBytes_tags]
  exact parsePDU_wellformed u fn 0 0 0 0 fs htags

/-- C3 witness: concrete round trip through encode and decode. -/
theorem C3_roundtrip_witness :
    ((2 : Nat) < 256 ∧ (5 : Nat) < 256 ∧ WellFormedFields [(7, 1), (300, 2)]) ∧
      parsePDU ((makePDU 2 5 [(7, 1), (300, 2)]).zip (matchingLayout [(7, 1), (300, 2)])) =
        ParseResult.ok ⟨2, 5, [7, 300]⟩ :=
  ⟨⟨by norm_num, by norm_num, by decide⟩,
    C3_roundtrip 2 5 [(7, 1), (300, 2)] (by norm_num) (by norm_num) (by decide)⟩

theorem wellFormed_read_fields {s q : Nat} (hs : s < 65536) (hq : q < 65536) :
    WellFormedFields [(s, 2), (q, 2)] := by
  intro f hf
  simp only [List.mem_cons, List.not_mem_nil, or_false] at hf
  rcases hf with rfl | rfl
  · exact Or.inr ⟨rfl, hs⟩
  · exact Or.inr ⟨rfl, hq⟩

theorem handle0x03_canonical (bank : List Nat) (u s q : Nat)
    (hu : u < 256) (hs : s < 65536) (hq : q < 65536) :
    handle0x03Request bank (makePDU u 3 [(s, 2), (q, 2)]) =
      (if s > 999 ∨ s + q - 1 > 999
       then some (makeError (makePDU u 3 [(s, 2), (q, 2)]) 2)
       else some (makePDU u 3
         ((q * 2, 1) :: ((bank.drop s).take (s + q - s)).map (fun x => (x, 2))))) := by
  have hwf := wellFormed_read_fields hs hq
  have hfb : (([(s, 2), (q, 2)] : List (Nat × Nat)).map fieldBytes).flatten =
      [s >>> 8, s &&& 255, q >>> 8, q &&& 255] := by
    simp [fieldBytes]
  have hexp := makePDU_explicit u 3 [(s, 2), (q, 2)] hu (by norm_num) hwf
  rw [hfb] at hexp
  have hreq : makePDU u 3 [(s, 2), (q, 2)] =
      [u, 3, s >>> 8, s &&& 255, q >>> 8, q &&& 255,
       CRC_16 [u, 3, s >>> 8, s &&& 255, q >>> 8, q &&& 255] &&& 255,
       CRC_16 [u, 3, s >>> 8, s &&& 255, q >>> 8, q &&& 255] >>> 8] := by
    rw [hexp]
    simp
  rw [hreq]
  unfold handle0x03Request
  simp only [List.getD_cons_zero, List.getD_cons_succ]
  have hparse := parsePDU_wellformed u 3 0 0 1 2 [(s, 2), (q, 2)]
    (fun f hf => ((wellFormed_read_fields hs hq) f hf).imp And.left And.left)
  rw [hfb] at hparse
  have hshape : ([(u, 0), (3, 0), (s >>> 8, 1), (s &&& 255, 2), (q >>> 8, 1), (q &&& 255, 2),
      (CRC_16 [u, 3, s >>> 8, s &&& 255, q >>> 8, q &&& 255] &&& 255, 1),
      (CRC_16 [u, 3, s >>> 8, s &&& 255, q >>> 8, q &&& 255] >>> 8, 2)] : List (Nat × Nat)) =
      (u, 0) :: (3, 0) :: (taggedFields [(s, 2), (q, 2)] ++
        [(CRC_16 (u :: 3 :: [s >>> 8, s &&& 255, q >>> 8, q &&& 255]) &&& 255, 1),
         (CRC_16 (u :: 3 :: [s >>> 8, s &&& 255, q >>> 8, q &&& 255]) >>> 8, 2)]) := by
    simp [taggedFields, fieldTagged]
  rw [hshape, hparse]
  simp only [List.getD_cons_zero, List.getD_cons_succ, List.map_cons]

theorem makePDU_read_explicit (u fn s q : Nat) (hu : u < 256) (hfn : fn < 256)
    (hs : s < 65536) (hq : q < 65536) :
    makePDU u fn [(s, 2), (q, 2)] =
      [u, fn, s >>> 8, s &&& 255, q >>> 8, q &&& 255,
       CRC_16 [u, fn, s >>> 8, s &&& 255, q >>> 8, q &&& 255] &&& 255,
       CRC_16 [u, fn, s >>> 8, s &&& 255, q >>> 8, q &&& 255] >>> 8] := by
  have hexp := makePDU_explicit u fn [(s, 2), (q, 2)] hu hfn (wellFormed_read_fields hs hq)
  have hfb : (([(s, 2), (q, 2)] : List (Nat × Nat)).map fieldBytes).flatten =
      [s >>> 8, s &&& 255, q >>> 8, q &&& 255] := by
    simp [fieldBytes]
  rw [hfb] at hexp
  rw [hexp]
  simp

set_option maxRecDepth 2000 in
/-- C6 counterexample: the claim quantifies over every checksum-valid 0x03
request with start + quantity - 1 at most 999, but the request with
start = 1000 and quantity = 0 satisfies that bound and is still rejected
with IllegalDataAddress(2), because the code also requires start itself to
be at most 999; the claimed success response (byteCount 0, no values) is
not produced. -/
theorem C6_counterexample :
    handleModbusRequest (List.replicate 1000 0) (makePDU 1 3 [(1000, 2), (0, 2)]) =
      some (List.replicate 1000 0, makeError (makePDU 1 3 [(1000, 2), (0, 2)]) 2) ∧
    makeError (makePDU 1 3 [(1000, 2), (0, 2)]) 2 ≠ makePDU 1 3 [(0 * 2, 1)] :=
  ⟨by rfl, by decide⟩

/-- C6 (amended): for every checksum-valid 0x03 request whose start is at
most 999 and start + quantity - 1 is at most 999, the response is the
success frame whose fields are the 1-byte byteCount quantity*2 followed by
the quantity 2-byte register values RegisterBank[start .. start+quantity-1]
in order, and the register bank is returned unchanged. -/
theorem C6_read_success (bank : List Nat) (u s q : Nat)
    (hu : u < 256) (hs : s ≤ 999) (hrange : s + q - 1 ≤ 999) (hq : q < 65536) :
    handleModbusRequest bank (makePDU u 3 [(s, 2), (q, 2)]) =
      some (bank, makePDU u 3
        ((q * 2, 1) :: ((bank.drop s).take q).map (fun x => (x, 2)))) := by
  have hs' : s < 65536 := by omega
  have hexp := makePDU_read_explicit u 3 s q hu (by norm_num) hs' hq
  have hb1 : (makePDU u 3 [(s, 2), (q, 2)]).getD 1 0 = 3 := by rw [hexp]; rfl
  unfold handleModbusRequest
  rw [hb1, if_pos rfl]
  rw [handle0x03_canonical bank u s q hu hs' hq]
  rw [if_neg (by omega)]
  rw [Nat.add_sub_cancel_left]
  simp

/-- C6 witness: read three registers starting at index 2. -/
theorem C6_read_success_witness :
    ((1 : Nat) < 256 ∧ (2 : Nat) ≤ 999 ∧ 2 + 3 - 1 ≤ 999 ∧ (3 : Nat) < 65536) ∧
      handleModbusRequest [5, 6, 7, 8, 9] (makePDU 1 3 [(2, 2), (3, 2)]) =
        some ([5, 6, 7, 8, 9], makePDU 1 3 ((3 * 2, 1) ::
          (([5, 6, 7, 8, 9].drop 2).take 3).map (fun x => (x, 2)))) :=
  ⟨⟨by norm_num, by norm_num, by norm_num, by norm_num⟩,
    C6_read_success [5, 6, 7, 8, 9] 1 2 3 (by norm_num) (by norm_num) (by norm_num)
      (by norm_num)⟩

set_option maxRecDepth 2000 in
/-- C4: the claim says every complete frame addressed to the configured id
yields exactly one response, and mismatched ids are silently discarded.
The discard half holds, but the complete 0x10 frame
[1, 16, 0, 0, 0, 1, 1, 0xAB, crcLo, crcHi] (start 0, quantity 1, declared
byteCount 1, one payload byte, valid checksum) makes the decode loop of
parsePDU read past the end of its data array and throw a TypeError, so the
process crashes and no response is produced. -/
theorem C4_dispatch_crash :
    serverStep 1 (List.replicate 1000 0)
        (makePDU 1 0x10 [(0, 2), (1, 2), (1, 1), (0xAB, 1)]) = ServerOutcome.crash ∧
      serverStep 2 (List.replicate 1000 0)
        (makePDU 1 0x10 [(0, 2), (1, 2), (1, 1), (0xAB, 1)]) = ServerOutcome.discarded :=
  ⟨by rfl, by rfl⟩

set_option maxRecDepth 2000 in
/-- C7: the claim says every 0x03 or 0x10 request with a checksum mismatch
is answered with an explicit ChecksumFailure(4) exception.  The 0x10 frame
[1, 16, 0, 0, 0, 2, 1, 0xCD, 0, 0] has an invalid transmitted checksum
(first conjunct), yet the handler crashes in the decode loop before the
checksum is ever validated, producing no response at all instead of the
claimed code-4 exception frame. -/
theorem C7_checksum_crash :
    validateCRC_16 [1, 0x10, 0, 0, 0, 2, 1, 0xCD] ((0 <<< 8) + 0) = false ∧
      handle0x10Request (List.replicate 1000 0) [1, 0x10, 0, 0, 0, 2, 1, 0xCD, 0, 0] = none :=
  ⟨by decide, by rfl⟩

set_option maxRecDepth 2000 in
/-- C8: the claim says any 0x03/0x10 request carrying start + quantity - 1
above 999 is answered with IllegalDataAddress(2) regardless of other field
validity.  The checksum-valid 0x10 frame with start 1000, quantity 1 and
declared byteCount 1 carries such a range (first conjunct), yet the decode
loop crashes before the range check runs, so no exception response is
produced. -/
theorem C8_range_crash :
    1000 + 1 - 1 > 999 ∧
      handle0x10Request (List.replicate 1000 0)
        (makePDU 1 0x10 [(1000, 2), (1, 2), (1, 1), (0x11, 1)]) = none :=
  ⟨by norm_num, by rfl⟩

set_option maxRecDepth 2000 in
/-- C9: the claim says any 0x10 request with declared byteCount different
from quantity*2 is answered with IllegalDataValue(3).  The checksum-valid
0x10 frame with quantity 1 and declared byteCount 1 (so byteCount differs
from quantity*2 = 2, first conjunct) crashes the decode loop before the
byte-count validation runs, so no exception response is produced. -/
theorem C9_bytecount_crash :
    (1 : Nat) ≠ 1 * 2 ∧
      handle0x10Request (List.replicate 1000 0)
        (makePDU 1 0x10 [(0, 2), (1, 2), (1, 1), (0x55, 1)]) = none :=
  ⟨by norm_num, by rfl⟩

/-- C10: any request whose function byte is neither 0x03 nor 0x10 is
answered, with no checksum validation of the request, by the exception
frame built from the raw bytes 0-1: unitId, functionId with the high bit
set, exception code 1, then the checksum low byte first.  No hypothesis
constrains the trailing request bytes, so the request checksum is indeed
never examined. -/
theorem C10_unknown_function (tags request : List Nat)
    (h3 : request.getD 1 0 ≠ 0x03) (h16 : request.getD 1 0 ≠ 0x10)
    (hu : request.getD 0 0 < 256) (hfn : request.getD 1 0 < 256) :
    handleModbusRequest tags request =
      some (tags,
        [request.getD 0 0, request.getD 1 0 ||| 0x80, 1,
         CRC_16 [request.getD 0 0, request.getD 1 0 ||| 0x80, 1] % 256,
         CRC_16 [request.getD 0 0, request.getD 1 0 ||| 0x80, 1] / 256]) := by
  unfold handleModbusRequest
  rw [if_neg h3, if_neg h16]
  have hor : request.getD 1 0 ||| 0b10000000 < 256 := by
    have h256 : (256 : Nat) = 2 ^ 8 := by norm_num
    rw [h256] at hfn ⊢
    exact Nat.or_lt_two_pow hfn (by norm_num)
  have hwf : WellFormedFields [(1, 1)] := by
    intro f hf
    simp only [List.mem_cons, List.not_mem_nil, or_false] at hf
    rw [hf]
    exact Or.inl ⟨rfl, by norm_num⟩
  unfold makeError
  rw [makePDU_explicit _ _ _ hu hor hwf]
  rw [and255_eq, shiftRight8_eq]
  simp [fieldBytes]

/-- C10 witness: scenario B, unrecognized function 0x06. -/
theorem C10_unknown_function_witness :
    (([(7 : Nat), 6, 9, 9].getD 1 0 ≠ 0x03) ∧ ([(7 : Nat), 6, 9, 9].getD 1 0 ≠ 0x10) ∧
        [(7 : Nat), 6, 9, 9].getD 0 0 < 256 ∧ [(7 : Nat), 6, 9, 9].getD 1 0 < 256) ∧
      handleModbusRequest [] [7, 6, 9, 9] =
        some (([] : List Nat),
          [[(7 : Nat), 6, 9, 9].getD 0 0, [(7 : Nat), 6, 9, 9].getD 1 0 ||| 0x80, 1,
           CRC_16 [[(7 : Nat), 6, 9, 9].getD 0 0, [(7 : Nat), 6, 9, 9].getD 1 0 ||| 0x80, 1] % 256,
           CRC_16 [[(7 : Nat), 6, 9, 9].getD 0 0, [(7 : Nat), 6, 9, 9].getD 1 0 ||| 0x80, 1] / 256]) :=
  ⟨⟨by decide, by decide, by decide, by decide⟩,
    C10_unknown_function [] [7, 6, 9, 9] (by decide) (by decide) (by decide) (by decide)⟩

theorem tagAlternating_add_two (l : List Nat) : ∀ k, tagAlternating l (k + 2) = tagAlternating l k := by
  induction l with
  | nil => intro k; rfl
  | cons x t ih =>
      intro k
      simp only [tagAlternating]
      rw [Nat.add_mod_right]
      rw [show k + 2 + 1 = (k + 1) + 2 from rfl, ih (k + 1)]

theorem tagAlternating_cons_cons_zero (a b : Nat) (l : List Nat) :
    tagAlternating (a :: b :: l) 0 = (a, 1) :: (b, 2) :: tagAlternating l 2 := rfl

theorem tagAlternating_flatten (vals : List Nat) (cl ch : Nat) :
    tagAlternating (((vals.map (fun v => (v, 2))).map fieldBytes).flatten ++ [cl, ch]) 0 =
      taggedFields (vals.map (fun v => (v, 2))) ++ [(cl, 1), (ch, 2)] := by
  induction vals with
  | nil => rfl
  | cons v t ih =>
      simp only [List.map_cons, List.flatten_cons, taggedFields_cons]
      have hfb : fieldBytes (v, 2) = [v >>> 8, v &&& 255] := by simp [fieldBytes]
      have hft : fieldTagged (v, 2) = [(v >>> 8, 1), (v &&& 255, 2)] := by simp [fieldTagged]
      rw [hfb, hft]
      simp only [List.cons_append, List.nil_append, List.append_assoc]
      rw [tagAlternating_cons_cons_zero]
      have h2 : tagAlternating
          (((t.map fun v => (v, 2)).map fieldBytes).flatten ++ [cl, ch]) 2 =
          tagAlternating (((t.map fun v => (v, 2)).map fieldBytes).flatten ++ [cl, ch]) 0 :=
        tagAlternating_add_two _ 0
      rw [h2, ih]

theorem writeTags_length (vals : List Nat) : ∀ (bank : List Nat) (start : Nat),
    (writeTags bank start vals).length = bank.length := by
  induction vals with
  | nil => intro bank start; rfl
  | cons v vs ih =>
      intro bank start
      rw [writeTags, ih, List.length_set]

theorem writeTags_getD_lt (vals : List Nat) : ∀ (bank : List Nat) (start j : Nat), j < start →
    (writeTags bank start vals).getD j 0 = bank.getD j 0 := by
  induction vals with
  | nil => intro bank start j _; rfl
  | cons v vs ih =>
      intro bank start j hj
      rw [writeTags, ih _ _ _ (by omega)]
      rw [List.getD_eq_getElem?_getD, List.getD_eq_getElem?_getD,
        List.getElem?_set_ne (by omega)]

theorem writeTags_getD_ge (vals : List Nat) : ∀ (bank : List Nat) (start j : Nat),
    start + vals.length ≤ j →
    (writeTags bank start vals).getD j 0 = bank.getD j 0 := by
  induction vals with
  | nil => intro bank start j _; rfl
  | cons v vs ih =>
      intro bank start j hj
      simp only [List.length_cons] at hj
      rw [writeTags, ih _ _ _ (by omega)]
      rw [List.getD_eq_getElem?_getD, List.getD_eq_getElem?_getD,
        List.getElem?_set_ne (by omega)]

theorem writeTags_getD_inside (vals : List Nat) : ∀ (bank : List Nat) (start i : Nat),
    i < vals.length → start + vals.length ≤ bank.length →
    (writeTags bank start vals).getD (start + i) 0 = vals.getD i 0 := by
  induction vals with
  | nil =>
      intro bank start i hi _
      simp at hi
  | cons v vs ih =>
      intro bank start i hi hlen
      simp only [List.length_cons] at hi hlen
      rw [writeTags]
      cases i with
      | zero =>
          have hgoal : (writeTags (bank.set start v) (start + 1) vs).getD start 0 =
              (v :: vs).getD 0 0 := by
            rw [writeTags_getD_lt vs _ _ _ (by omega : start < start + 1)]
            rw [List.getD_eq_getElem?_getD, List.getElem?_set_self (by omega)]
            rfl
          exact hgoal
      | succ i' =>
          rw [show start + (i' + 1) = (start + 1) + i' from by omega]
          rw [ih _ _ _ (by omega) (by rw [List.length_set]; omega)]
          rfl

theorem writeTags_slice (vals : List Nat) : ∀ (bank : List Nat) (start : Nat),
    start + vals.length ≤ bank.length →
    ((writeTags bank start vals).drop start).take vals.length = vals := by
  induction vals with
  | nil => intro bank start _; simp
  | cons v vs ih =>
      intro bank start h
      simp only [List.length_cons] at h
      rw [writeTags]
      have hlen : start < (writeTags (bank.set start v) (start + 1) vs).length := by
        rw [writeTags_length, List.length_set]
        omega
      rw [List.drop_eq_getElem_cons hlen]
      rw [List.length_cons, List.take_succ_cons]
      have hhead : (writeTags (bank.set start v) (start + 1) vs)[start] = v := by
        have hgd : (writeTags (bank.set start v) (start + 1) vs).getD start 0 = v := by
          rw [writeTags_getD_lt vs _ _ _ (by omega : start < start + 1)]
          rw [List.getD_eq_getElem?_getD, List.getElem?_set_self (by omega)]
          rfl
        rw [List.getD_eq_getElem?_getD, List.getElem?_eq_getElem hlen] at hgd
        simpa using hgd
      rw [hhead, ih _ _ (by rw [List.length_set]; omega)]

theorem wellFormed_writeFields {s q : Nat} (vals : List Nat)
    (hs : s < 65536) (hq : q < 65536) (hbc : q * 2 < 256)
    (hvals : ∀ v ∈ vals, v < 65536) :
    WellFormedFields (writeFields s q vals) := by
  intro f hf
  simp only [writeFields, List.mem_cons, List.mem_map] at hf
  rcases hf with rfl | rfl | rfl | ⟨v, hv, rfl⟩
  · exact Or.inr ⟨rfl, hs⟩
  · exact Or.inr ⟨rfl, hq⟩
  · exact Or.inl ⟨rfl, hbc⟩
  · exact Or.inr ⟨rfl, hvals v hv⟩

theorem makePDU_write_explicit (u s q : Nat) (vals : List Nat)
    (hu : u < 256) (hs : s < 65536) (hq : q < 65536) (hbc : q * 2 < 256)
    (hvals : ∀ v ∈ vals, v < 65536) :
    makePDU u 16 (writeFields s q vals) =
      writeReqBody u s q vals ++
        [CRC_16 (writeReqBody u s q vals) &&& 255,
         CRC_16 (writeReqBody u s q vals) >>> 8] := by
  have hwf := wellFormed_writeFields vals hs hq hbc hvals
  have hexp := makePDU_explicit u 16 (writeFields s q vals) hu (by norm_num) hwf
  have hfb : ((writeFields s q vals).map fieldBytes).flatten =
      (s >>> 8) :: (s &&& 255) :: (q >>> 8) :: (q &&& 255) :: (q * 2) :: valBytes vals := by
    simp [writeFields, valBytes, fieldBytes]
  rw [hfb] at hexp
  rw [hexp]
  simp [writeReqBody]

theorem taggedFields_writeFields (s q : Nat) (vals : List Nat) :
    taggedFields (writeFields s q vals) =
      ((s >>> 8), 1) :: ((s &&& 255), 2) :: ((q >>> 8), 1) :: ((q &&& 255), 2) ::
        (q * 2, 0) :: taggedFields (vals.map (fun v => (v, 2))) := by
  simp [writeFields, taggedFields_cons, fieldTagged]

theorem writeFields_map_fst (s q : Nat) (vals : List Nat) :
    (writeFields s q vals).map Prod.fst = s :: q :: q * 2 :: vals := by
  simp [writeFields, List.map_map]
  exact List.map_id vals

theorem tagAlternating_valBytes (vals : List Nat) (cl ch : Nat) :
    tagAlternating (valBytes vals ++ [cl, ch]) 0 =
      taggedFields (vals.map (fun v => (v, 2))) ++ [(cl, 1), (ch, 2)] :=
  tagAlternating_flatten vals cl ch

theorem handle0x10_canonical (bank : List Nat) (u s q : Nat) (vals : List Nat)
    (hu : u < 256) (hs : s ≤ 999) (hrange : s + q - 1 ≤ 999)
    (hbc : q * 2 < 256) (hvals : ∀ v ∈ vals, v < 65536) (hlen : vals.length = q) :
    handle0x10Request bank (makePDU u 16 (writeFields s q vals)) =
      some (writeTags bank s vals, makePDU u 16 [(s, 2), (q, 2)]) := by
  have hs' : s < 65536 := by omega
  have hq' : q < 65536 := by omega
  have hexp := makePDU_write_explicit u s q vals hu hs' hq' hbc hvals
  rw [hexp]
  unfold handle0x10Request
  simp only [writeReqBody, List.cons_append, List.nil_append, List.getD_cons_zero,
    List.getD_cons_succ, List.drop_succ_cons, List.drop_zero]
  rw [tagAlternating_valBytes]
  have hfold : (u :: 16 :: (s >>> 8) :: (s &&& 255) :: (q >>> 8) :: (q &&& 255) ::
      (q * 2) :: valBytes vals) = writeReqBody u s q vals := rfl
  rw [hfold]
  have hfb : ((writeFields s q vals).map fieldBytes).flatten =
      (s >>> 8) :: (s &&& 255) :: (q >>> 8) :: (q &&& 255) :: (q * 2) :: valBytes vals := by
    simp [writeFields, valBytes, fieldBytes]
  have hshape : ((u, 0) :: (16, 0) :: ((s >>> 8), 1) :: ((s &&& 255), 2) :: ((q >>> 8), 1) ::
      ((q &&& 255), 2) :: (q * 2, 0) ::
        (taggedFields (vals.map (fun v => (v, 2))) ++
          [(CRC_16 (writeReqBody u s q vals) &&& 255, 1),
           (CRC_16 (writeReqBody u s q vals) >>> 8, 2)]) : List (Nat × Nat)) =
      (u, 0) :: (16, 0) :: (taggedFields (writeFields s q vals) ++
        [(CRC_16 (u :: 16 :: ((writeFields s q vals).map fieldBytes).flatten) &&& 255, 1),
         (CRC_16 (u :: 16 :: ((writeFields s q vals).map fieldBytes).flatten) >>> 8, 2)]) := by
    rw [taggedFields_writeFields, hfb]
    simp [writeReqBody]
  rw [hshape]
  have htags : ∀ f ∈ writeFields s q vals, f.2 = 1 ∨ f.2 = 2 := by
    intro f hf
    rcases wellFormed_writeFields vals hs' hq' hbc hvals f hf with ⟨h1, _⟩ | ⟨h2, _⟩
    · exact Or.inl h1
    · exact Or.inr h2
  rw [parsePDU_wellformed u 16 0 0 1 2 (writeFields s q vals) htags]
  rw [writeFields_map_fst]
  simp only [List.getD_cons_zero, List.getD_cons_succ]
  rw [if_neg (by omega : ¬ (s > 999 ∨ s + q - 1 > 999))]
  have hget2 : (s :: q :: q * 2 :: vals).get? 2 = some (q * 2) := rfl
  rw [hget2]
  have hbcEq : byteCountMismatch q (some (q * 2)) = false := by
    have hdiv : ((q * 2 : Nat) : ℚ) / 2 = (q : ℚ) := by push_cast; ring
    show ((q : ℚ) != ((q * 2 : Nat) : ℚ) / 2) = false
    rw [hdiv, bne_self_eq_false]
  rw [hbcEq]
  simp only [Bool.false_eq_true, if_false]
  have hcount : ¬ ((q : ℤ) ≠ (((s :: q :: q * 2 :: vals).length : Nat) : ℤ) - 3) := by
    simp only [List.length_cons, hlen]
    push_cast
    omega
  rw [if_neg hcount]
  have hdrop3 : (s :: q :: q * 2 :: vals).drop 3 = vals := rfl
  rw [hdrop3]

/-- C5: a checksum-valid 0x10 request that passes all validations writes
decoded value i into the bank at start + i for each i below quantity,
leaves every other register and the bank length unchanged, responds with
the success frame echoing the 2-byte start and 2-byte quantity, and a
subsequent valid 0x03 read of that range returns byteCount quantity*2 and
the written values. -/
theorem C5_write_success (bank : List Nat) (u s q : Nat) (vals : List Nat)
    (hu : u < 256) (hbank : bank.length = 1000)
    (hs : s ≤ 999) (hrange : s + q - 1 ≤ 999)
    (hbc : q * 2 < 256) (hvals : ∀ v ∈ vals, v < 65536) (hlen : vals.length = q) :
    handleModbusRequest bank (makePDU u 16 (writeFields s q vals)) =
      some (writeTags bank s vals, makePDU u 16 [(s, 2), (q, 2)]) ∧
    (writeTags bank s vals).length = bank.length ∧
    (∀ i, i < q → (writeTags bank s vals).getD (s + i) 0 = vals.getD i 0) ∧
    (∀ j, j < s ∨ s + q ≤ j → (writeTags bank s vals).getD j 0 = bank.getD j 0) ∧
    handleModbusRequest (writeTags bank s vals) (makePDU u 3 [(s, 2), (q, 2)]) =
      some (writeTags bank s vals,
        makePDU u 3 ((q * 2, 1) :: vals.map (fun v => (v, 2)))) := by
  have hs' : s < 65536 := by omega
  have hq' : q < 65536 := by omega
  have hsq : s + q ≤ 1000 := by omega
  refine ⟨?_, ?_, ?_, ?_, ?_⟩
  · have hexp := makePDU_write_explicit u s q vals hu hs' hq' hbc hvals
    have hb1 : (makePDU u 16 (writeFields s q vals)).getD 1 0 = 16 := by
      rw [hexp]; rfl
    unfold handleModbusRequest
    rw [hb1]
    rw [if_neg (by norm_num : ¬ (16 : Nat) = 3), if_pos rfl]
    exact handle0x10_canonical bank u s q vals hu hs hrange hbc hvals hlen
  · exact writeTags_length vals bank s
  · intro i hi
    exact writeTags_getD_inside vals bank s i (by omega) (by omega)
  · intro j hj
    rcases hj with hj | hj
    · exact writeTags_getD_lt vals bank s j hj
    · exact writeTags_getD_ge vals bank s j (by omega)
  · have hexp := makePDU_read_explicit u 3 s q hu (by norm_num) hs' hq'
    have hb1 : (makePDU u 3 [(s, 2), (q, 2)]).getD 1 0 = 3 := by
      rw [hexp]; rfl
    unfold handleModbusRequest
    rw [hb1, if_pos rfl]
    rw [handle0x03_canonical (writeTags bank s vals) u s q hu hs' hq']
    rw [if_neg (by omega)]
    rw [Nat.add_sub_cancel_left]
    have hslice : ((writeTags bank s vals).drop s).take q = vals := by
      rw [← hlen]
      exact writeTags_slice vals bank s (by omega)
    rw [hslice]
    simp

set_option maxRecDepth 4000 in
/-- C5 witness: scenario A, writing [10, 20, 30] at start 0, quantity 3
into the all-zero 1000-register bank, then reading them back. -/
theorem C5_write_success_witness :
    ((1 : Nat) < 256 ∧ (List.replicate 1000 (0 : Nat)).length = 1000 ∧ (0 : Nat) ≤ 999 ∧
        0 + 3 - 1 ≤ 999 ∧ (3 : Nat) * 2 < 256 ∧
        (∀ v ∈ ([10, 20, 30] : List Nat), v < 65536) ∧
        ([10, 20, 30] : List Nat).length = 3) ∧
      (handleModbusRequest (List.replicate 1000 0)
          (makePDU 1 16 (writeFields 0 3 [10, 20, 30])) =
        some (writeTags (List.replicate 1000 0) 0 [10, 20, 30],
          makePDU 1 16 [(0, 2), (3, 2)]) ∧
      (writeTags (List.replicate 1000 0) 0 [10, 20, 30]).length =
        (List.replicate 1000 (0 : Nat)).length ∧
      (∀ i, i < 3 → (writeTags (List.replicate 1000 0) 0 [10, 20, 30]).getD (0 + i) 0 =
        ([10, 20, 30] : List Nat).getD i 0) ∧
      (∀ j, j < 0 ∨ 0 + 3 ≤ j → (writeTags (List.replicate 1000 0) 0 [10, 20, 30]).getD j 0 =
        (List.replicate 1000 (0 : Nat)).getD j 0) ∧
      handleModbusRequest (writeTags (List.replicate 1000 0) 0 [10, 20, 30])
          (makePDU 1 3 [(0, 2), (3, 2)]) =
        some (writeTags (List.replicate 1000 0) 0 [10, 20, 30],
          makePDU 1 3 ((3 * 2, 1) :: ([10, 20, 30] : List Nat).map (fun v => (v, 2))))) :=
  ⟨⟨by norm_num, by simp, by norm_num, by norm_num, by norm_num, by decide, by rfl⟩,
    C5_write_success (List.replicate 1000 0) 1 0 3 [10, 20, 30]
      (by norm_num) (by simp) (by norm_num) (by norm_num) (by norm_num) (by decide) (by rfl)⟩
